import Mathlib

/-!
Verification of the `@testdeck/core` decorator-to-runner mapping engine
(`src/packages/@testdeck/core/index.ts`).

The TypeScript source is shallowly embedded as follows.

* Method metadata, attached by decorators directly onto the function objects
  (`nameSymbol`, `parametersSymbol`, `nameForParametersSymbol`, `slowSymbol`,
  `timeoutSymbol`, `retriesSymbol`, `executionSymbol`), becomes the record
  `Meta`.  A JavaScript `undefined` slot is `Option.none`.
* A JavaScript function object (declared arity `length`, an identity used to
  tell which body a registration invokes, and its attached metadata) becomes
  `JsFunc`.  The identity is a plain `tag : Nat`.
* A prototype chain becomes the inductive `Proto`: `Proto.root` stands for
  `Object.prototype`, and each `Proto.node` carries the own function-valued
  properties of one prototype, in JavaScript own-property enumeration order
  (for ordinary method names this is declaration order), together with the
  suite-flag and name of its constructor.
* The `TestRunner` interface is not executed; instead the registration
  callback produced by `suiteCallbackFromClass` is evaluated to the list of
  runner calls it issues, as `Event` values, paired with the error message it
  throws, if any (`runSuiteCallback : TestClass α → List (Event α) × Option
  String`).  A parameterized method's child suite receives its `runner.test`
  calls directly as `Event.suiteEv` children, mirroring a runner that invokes
  the child-suite callback synchronously.
* `collectedTests` (an object literal used as a string-keyed dictionary) is
  modelled as an association list in insertion order; properties inherited
  from `Object.prototype` by the literal are not modelled.

The payload of a parameter set (`params: any`) is a type parameter `α`.
-/

namespace Testdeck

/-- `Execution` from the source: `"pending" | "only" | "skip"`; the
`undefined` member of the union is represented by `Option.none` at use
sites. -/
inductive Execution where
  | pending
  | only
  | skip
deriving DecidableEq, Repr

/-- `TestParams` from the source: one parameter set pushed by `@params`. -/
structure TestParams (α : Type) where
  execution : Option Execution
  name : Option String
  params : α
deriving DecidableEq, Repr

/-- The metadata a decorator can attach to a method: the fields behind
`nameSymbol`, `parametersSymbol`, `nameForParametersSymbol`, `slowSymbol`,
`timeoutSymbol`, `retriesSymbol` and `executionSymbol`. -/
structure Meta (α : Type) where
  name : Option String := none
  parameters : Option (List (TestParams α)) := none
  nameForParameters : Option (α → String) := none
  slow : Option Nat := none
  timeout : Option Nat := none
  retries : Option Nat := none
  execution : Option Execution := none

/-- A JavaScript function object: its declared arity (`Function.length`), an
identity tag telling which body it is, and its attached metadata. -/
structure JsFunc (α : Type) where
  length : Nat
  tag : Nat
  meta : Meta α

/-- The settings object built by `getSettings` (fields absent in the object
are `none`). -/
structure Settings where
  slow : Option Nat := none
  timeout : Option Nat := none
  retries : Option Nat := none
  execution : Option Execution := none
deriving DecidableEq, Repr

/-- `getSettings` (index.ts:80-87): returns `undefined` (here `none`) when no
metadata key is present on the object, otherwise an object holding exactly
the present keys. -/
def getSettings {α : Type} (m : Meta α) : Option Settings :=
  if m.slow.isNone && m.timeout.isNone && m.retries.isNone && m.execution.isNone
  then none
  else some ⟨m.slow, m.timeout, m.retries, m.execution⟩

/-- JavaScript truthiness of the string-or-undefined `method[nameSymbol]`:
`undefined` and the empty string are falsy. -/
def jsTruthyName : Option String → Bool
  | some s => !(s == "")
  | none => false

/-- `isAsync` (index.ts:134-138): parameterised methods are async when their
arity exceeds 1, plain methods when it exceeds 0. -/
def isAsync {α : Type} (m : JsFunc α) : Bool :=
  let isParameterised := m.meta.parameters.isSome
  (isParameterised && decide (1 < m.length)) || (!isParameterised && decide (0 < m.length))

/-- A prototype chain.  `root` is `Object.prototype`; a `node` lists the own
function-valued properties of one prototype in enumeration order, plus its
constructor's suite flag (`constructor[suiteSymbol]`) and name. -/
inductive Proto (α : Type) where
  | root
  | node (own : List (String × JsFunc α)) (ctorSuite : Bool) (ctorName : String)
      (parent : Proto α)

/-- Property lookup `prototype[key]` through the chain. -/
def protoLookup {α : Type} : Proto α → String → Option (JsFunc α)
  | .root, _ => none
  | .node own _ _ parent, k =>
    match own.find? (fun e => e.1 == k) with
    | some e => some e.2
    | none => protoLookup parent k

/-- `prototype.constructor.name` of the most-derived prototype. -/
def protoCtorName {α : Type} : Proto α → String
  | .root => "Object"
  | .node _ _ n _ => n

/-- One `runner.test` registration: name, whether the registered callback
declares a completion-callback parameter, the tag of the method body the
callback invokes on the instance, the parameter values appended to that
invocation, and the forwarded settings. -/
structure TestReg (α : Type) where
  name : String
  async : Bool
  tag : Nat
  callArgs : List α
  settings : Option Settings
deriving DecidableEq, Repr

/-- One call issued against the `TestRunner` interface by the registration
callback.  A child suite (`Event.suiteEv`) carries the `runner.test` calls its
own callback issues. -/
inductive Event (α : Type) where
  | suiteEv (name : String) (children : List (TestReg α)) (settings : Option Settings)
  | testEv (reg : TestReg α)
  | beforeAllEv (name : String) (async : Bool) (settings : Option Settings)
  | beforeEachEv (name : String) (async : Bool) (settings : Option Settings)
  | afterEachEv (name : String) (async : Bool) (settings : Option Settings)
  | afterAllEv (name : String) (async : Bool) (settings : Option Settings)
deriving DecidableEq, Repr

/-- The string a test method's `method[nameSymbol]` interpolates to; a missing
name metadata stringifies as JavaScript `undefined` does. -/
def methodDisplayName {α : Type} (m : JsFunc α) : String :=
  m.meta.name.getD "undefined"

/-- The name of the test registered for the `i`-th parameter set
(index.ts:167-174): start from the fallback `testName_i`, replace it by the
set's own name when that is truthy, else by `nameForParameters(params)` when
that function is attached. -/
def paramTestName {α : Type} (testName : String) (nameFor : Option (α → String))
    (i : Nat) (p : TestParams α) : String :=
  let fallback := testName ++ "_" ++ toString i
  match p.name with
  | some s =>
    if s == "" then
      match nameFor with
      | some f => f p.params
      | none => fallback
    else s
  | none =>
    match nameFor with
    | some f => f p.params
    | none => fallback

/-- `applyTestFunc` (index.ts:183-193): registers one test whose callback
invokes the method on the instance, passing a completion callback first when
the method is async, then the call arguments. -/
def applyTestFunc {α : Type} (testName : String) (m : JsFunc α) (callArgs : List α)
    (settings : Option Settings) : TestReg α :=
  ⟨testName, isAsync m, m.tag, callArgs, settings⟩

/-- The tests registered inside a parameterized method's child suite
(index.ts:166-176): one per parameter set, in array order, each invoked with
that set's `params` value and the settings object literal `\x7b execution \x7d`. -/
def childTests {α : Type} (m : JsFunc α) (ps : List (TestParams α)) : List (TestReg α) :=
  ps.enum.map (fun ip =>
    applyTestFunc (paramTestName (methodDisplayName m) m.meta.nameForParameters ip.1 ip.2)
      m [ip.2.params] (some { execution := ip.2.execution }))

/-- `declareTestMethod` (index.ts:159-181): a parameterized method becomes a
child suite named by the method's display name; a plain method becomes a
single test. -/
def declareTestMethod {α : Type} (m : JsFunc α) : Event α :=
  match m.meta.parameters with
  | some ps => .suiteEv (methodDisplayName m) (childTests m ps) (getSettings m.meta)
  | none => .testEv (applyTestFunc (methodDisplayName m) m [] (getSettings m.meta))

/-- `!collectedTests[key]` for the modelled dictionary: the key is present. -/
def hasKey {α : Type} (acc : List (String × JsFunc α)) (k : String) : Bool :=
  acc.any (fun e => e.1 == k)

/-- The `Object.getOwnPropertyNames(currentPrototype).forEach` body
(index.ts:145-152): for each own key of the current chain level, look the
method up from the most-derived prototype, and record it when it carries
truthy name metadata and the key was not collected yet. -/
def collectOwn {α : Type} (rootP : Proto α) :
    List (String × JsFunc α) → List (String × JsFunc α) → List (String × JsFunc α)
  | [], acc => acc
  | e :: rest, acc =>
    match protoLookup rootP e.1 with
    | some m =>
      if jsTruthyName m.meta.name && !(hasKey acc e.1) then
        collectOwn rootP rest (acc ++ [(e.1, m)])
      else
        collectOwn rootP rest acc
    | none => collectOwn rootP rest acc

/-- The error message thrown when a suite class has a suite ancestor
(index.ts:155). -/
def suiteSubclassError (derived ancestor : String) : String :=
  "@suite " ++ derived ++ " cannot be a subclass of @suite " ++ ancestor ++ "."

/-- The `while (currentPrototype !== Object.prototype)` walk
(index.ts:142-157): collect the current level's own properties, move one
level up, and fail when the new level is a non-root prototype whose
constructor is marked `@suite`. -/
def collectChain {α : Type} (rootP : Proto α) :
    Proto α → List (String × JsFunc α) → Except String (List (String × JsFunc α))
  | .root, acc => .ok acc
  | .node own _ _ parent, acc =>
    let acc2 := collectOwn rootP own acc
    match parent with
    | .root => .ok acc2
    | .node _ pSuite pName _ =>
      if pSuite then .error (suiteSubclassError (protoCtorName rootP) pName)
      else collectChain rootP parent acc2

/-- A test class as `suiteCallbackFromClass` consumes it: its static
`before`/`after` methods resolved through the constructor chain, and its
prototype. -/
structure TestClass (α : Type) where
  staticBefore : Option (JsFunc α)
  staticAfter : Option (JsFunc α)
  proto : Proto α

/-- The registrations issued before test collection (index.ts:98-132): the
optional `beforeAll` for the static `before`, the internal instance-setup
`beforeEach` (registered with no settings argument), and the optional
`beforeEach` for the instance `before` hook found on the prototype chain. -/
def preEvents {α : Type} (cls : TestClass α) : List (Event α) :=
  (match cls.staticBefore with
   | some b => [Event.beforeAllEv "static before" (isAsync b) (getSettings b.meta)]
   | none => [])
  ++ [Event.beforeEachEv "setup instance" false none]
  ++ (match protoLookup cls.proto "before" with
      | some b => [Event.beforeEachEv "before" (isAsync b) (getSettings b.meta)]
      | none => [])

/-- The registrations issued after the tests (index.ts:202-217): the optional
`afterEach` for the instance `after` hook, then the internal
instance-teardown `afterEach`. -/
def postEvents {α : Type} (cls : TestClass α) : List (Event α) :=
  (match protoLookup cls.proto "after" with
   | some a => [Event.afterEachEv "after" (isAsync a) (getSettings a.meta)]
   | none => [])
  ++ [Event.afterEachEv "teardown instance" false none]

/-- The final `afterAll` registration for the static `after` hook
(index.ts:220-230).  The source passes `theTestUI.getSettings(target.before)`
as the settings — the static `before` method's metadata — and therefore
throws a `TypeError` (evaluating `key in undefined`) when a static `after`
exists without a static `before`. -/
def afterAllEvents {α : Type} (cls : TestClass α) : List (Event α) × Option String :=
  match cls.staticAfter with
  | none => ([], none)
  | some a =>
    match cls.staticBefore with
    | some b => ([Event.afterAllEv "static after" (isAsync a) (getSettings b.meta)], none)
    | none => ([], some "TypeError: cannot read metadata of undefined static before")

/-- The registration callback returned by `suiteCallbackFromClass`
(index.ts:95-232), evaluated to the list of runner calls it issues and the
error it throws, if any.  The collection walk throws after the `beforeEach`
registrations but before any `runner.test` call. -/
def runSuiteCallback {α : Type} (cls : TestClass α) : List (Event α) × Option String :=
  match collectChain cls.proto cls.proto [] with
  | .error e => (preEvents cls, some e)
  | .ok tests =>
    (preEvents cls ++ tests.map (fun e => declareTestMethod e.2) ++ postEvents cls
       ++ (afterAllEvents cls).1,
     (afterAllEvents cls).2)

/-- The `runner.test` registrations among a list of issued calls. -/
def testsOf {α : Type} (evs : List (Event α)) : List (TestReg α) :=
  evs.filterMap (fun e => match e with | .testEv r => some r | _ => none)

/-- Recognizes the internal instance-setup `beforeEach` registration. -/
def isSetupInstance {α : Type} : Event α → Bool
  | .beforeEachEv n _ _ => n == "setup instance"
  | _ => false

/-- Recognizes the internal instance-teardown `afterEach` registration. -/
def isTeardownInstance {α : Type} : Event α → Bool
  | .afterEachEv n _ _ => n == "teardown instance"
  | _ => false

/-- Whether some strict ancestor of the most-derived prototype (short of
`Object.prototype`) has a constructor marked `@suite`. -/
def hasSuiteAncestor {α : Type} : Proto α → Bool
  | .root => false
  | .node _ _ _ parent =>
    match parent with
    | .root => false
    | .node _ s _ _ => s || hasSuiteAncestor parent

/-! Decorator actions on a method's metadata.  A TypeScript method decorator
receives `(target, propertyKey, descriptor)` and mutates
`target[propertyKey]`'s attached metadata; here a decorator is a function
`Meta α → Meta α`, parameterized by the property key where the source reads
`propertyKey.toString()`. -/

/-- The decorator produced by `makeParamsFunction` (index.ts:347-355):
unconditionally sets the name metadata to the property key, then pushes the
parameter set onto the (possibly fresh) parameters array. -/
def paramsDecoratorApply {α : Type} (execution : Option Execution) (params : α)
    (nm : Option String) (key : String) (m : Meta α) : Meta α :=
  { m with
    name := some key
    parameters := some ((m.parameters.getD []) ++ [⟨execution, nm, params⟩]) }

/-- A sequence of `@params` decorators in the order they are applied
(bottom-up: the decorator written closest to the method applies first).
Each triple is the `(execution, params, name)` of `makeParamsFunction`. -/
def applyParamsList {α : Type} (key : String)
    (ds : List (Option Execution × α × Option String)) (m : Meta α) : Meta α :=
  ds.foldl (fun m d => paramsDecoratorApply d.1 d.2.1 d.2.2 key m) m

/-- The `testProperty` branch of `makeTestFunction` (index.ts:295-300), i.e.
bare `@test` (or `@test.skip` etc.) applied directly to a method: sets the
name metadata to the property key and, when the variant carries one, the
execution mode. -/
def testPropertyApply {α : Type} (execution : Option Execution) (key : String)
    (m : Meta α) : Meta α :=
  let m2 := { m with name := some key }
  match execution with
  | some e => { m2 with execution := some e }
  | none => m2

/-- The `testDecoratorNamed` branch of `makeTestFunction` (index.ts:312-322),
i.e. `@test("name", ...decorators)`: sets the name metadata to the given
display name, applies the secondary decorators in argument order, then the
variant's execution mode. -/
def testDecoratorNamedApply {α : Type} (execution : Option Execution) (nm : String)
    (ds : List (Meta α → Meta α)) (m : Meta α) : Meta α :=
  let m2 := ds.foldl (fun m d => d m) { m with name := some nm }
  match execution with
  | some e => { m2 with execution := some e }
  | none => m2

/-- The method-target action of the decorator produced by
`createExecutionModifier` (index.ts:397-413) when applied bare:
`target[propertyKey][executionSymbol] = execution`. -/
def executionModifierMethod {α : Type} (e : Execution) (m : Meta α) : Meta α :=
  { m with execution := some e }

/-- `createExecutionModifier`'s boolean-condition overload (index.ts:399-405):
a truthy condition returns the decorator itself, a falsy one returns the
no-op `() => \x7b\x7d`. -/
def executionModifierCondMethod {α : Type} (e : Execution) (cond : Bool) :
    Meta α → Meta α :=
  if cond then executionModifierMethod e else fun m => m

/-! Supporting lemmas about the registration pipeline. -/

theorem testsOf_append {α : Type} (a b : List (Event α)) :
    testsOf (a ++ b) = testsOf a ++ testsOf b :=
  List.filterMap_append ..

theorem testsOf_preEvents {α : Type} (cls : TestClass α) :
    testsOf (preEvents cls) = [] := by
  unfold preEvents
  cases cls.staticBefore <;> cases protoLookup cls.proto "before" <;>
    simp [testsOf]

theorem testsOf_postEvents {α : Type} (cls : TestClass α) :
    testsOf (postEvents cls) = [] := by
  unfold postEvents
  cases protoLookup cls.proto "after" <;> simp [testsOf]

theorem testsOf_afterAllEvents {α : Type} (cls : TestClass α) :
    testsOf (afterAllEvents cls).1 = [] := by
  unfold afterAllEvents
  cases cls.staticAfter <;> cases cls.staticBefore <;> simp [testsOf]

/-- In a list with no duplicate keys, `find?` by an element's key returns
that element. -/
theorem find?_eq_of_nodup_mem {α : Type} {own : List (String × JsFunc α)}
    {e : String × JsFunc α} (hnd : (own.map Prod.fst).Nodup) (he : e ∈ own) :
    own.find? (fun x => x.1 == e.1) = some e := by
  induction own with
  | nil => cases he
  | cons a l ih =>
    rw [List.map_cons, List.nodup_cons] at hnd
    rcases List.mem_cons.1 he with rfl | hmem
    · simp [List.find?]
    · have hne : (a.1 == e.1) = false := by
        refine beq_eq_false_iff_ne.mpr fun hb => ?_
        exact hnd.1 (hb ▸ List.mem_map_of_mem Prod.fst hmem)
      rw [List.find?_cons, hne]
      exact ih hnd.2 hmem

theorem protoLookup_of_find? {α : Type} {own : List (String × JsFunc α)}
    {s : Bool} {n : String} {p : Proto α} {k : String} {e : String × JsFunc α}
    (h : own.find? (fun x => x.1 == k) = some e) :
    protoLookup (Proto.node own s n p) k = some e.2 := by
  simp [protoLookup, h]

/-- Unfolding step of `collectOwn` when the key resolves to a method. -/
theorem collectOwn_cons_found {α : Type} (rootP : Proto α)
    (e : String × JsFunc α) (rest acc : List (String × JsFunc α)) (m : JsFunc α)
    (h : protoLookup rootP e.1 = some m) :
    collectOwn rootP (e :: rest) acc =
      if jsTruthyName m.meta.name && !(hasKey acc e.1) then
        collectOwn rootP rest (acc ++ [(e.1, m)])
      else collectOwn rootP rest acc := by
  simp [collectOwn, h]

/-- `collectOwn` over a level whose keys all resolve (from the derived
prototype) to the level's own entries, are distinct, and are not yet
collected, appends exactly the entries carrying truthy name metadata, in
order. -/
theorem collectOwn_eq_filter {α : Type} (rootP : Proto α)
    (l : List (String × JsFunc α)) :
    ∀ acc, (∀ e ∈ l, protoLookup rootP e.1 = some e.2) →
      (l.map Prod.fst).Nodup →
      (∀ e ∈ l, hasKey acc e.1 = false) →
      collectOwn rootP l acc = acc ++ l.filter (fun e => jsTruthyName e.2.meta.name) := by
  induction l with
  | nil => intro acc _ _ _; simp [collectOwn]
  | cons e rest ih =>
    intro acc hlk hnd hacc
    rw [List.map_cons, List.nodup_cons] at hnd
    have hl := hlk e (List.mem_cons_self e rest)
    have hacc_e := hacc e (List.mem_cons_self e rest)
    have hrestlk : ∀ x ∈ rest, protoLookup rootP x.1 = some x.2 :=
      fun x hx => hlk x (List.mem_cons_of_mem e hx)
    rw [collectOwn_cons_found rootP e rest acc e.2 hl]
    by_cases ht : jsTruthyName e.2.meta.name
    · rw [if_pos (by simp [ht, hacc_e])]
      have hacc2 : ∀ x ∈ rest, hasKey (acc ++ [(e.1, e.2)]) x.1 = false := by
        intro x hx
        have hxe : (e.1 == x.1) = false := by
          refine beq_eq_false_iff_ne.mpr fun hb => ?_
          exact hnd.1 (hb ▸ List.mem_map_of_mem Prod.fst hx)
        have hx0 := hacc x (List.mem_cons_of_mem e hx)
        simp [hasKey, List.any_append] at hx0 ⊢
        exact ⟨hx0, beq_eq_false_iff_ne.mp hxe⟩
      rw [ih (acc ++ [(e.1, e.2)]) hrestlk hnd.2 hacc2]
      simp [List.filter_cons, ht]
    · rw [if_neg (by simp [ht])]
      have hacc2 : ∀ x ∈ rest, hasKey acc x.1 = false :=
        fun x hx => hacc x (List.mem_cons_of_mem e hx)
      rw [ih acc hrestlk hnd.2 hacc2]
      simp [List.filter_cons, ht]

/-- For a class without inheritance (prototype directly below
`Object.prototype`) and distinct method names, the collection walk succeeds
and yields the own methods carrying truthy name metadata, in declaration
order. -/
theorem collectChain_single_node {α : Type} (own : List (String × JsFunc α))
    (s : Bool) (n : String) (hnd : (own.map Prod.fst).Nodup) :
    collectChain (Proto.node own s n Proto.root) (Proto.node own s n Proto.root) []
      = .ok (own.filter (fun e => jsTruthyName e.2.meta.name)) := by
  have hlk : ∀ e ∈ own, protoLookup (Proto.node own s n Proto.root) e.1 = some e.2 :=
    fun e he => protoLookup_of_find? (find?_eq_of_nodup_mem hnd he)
  have hacc : ∀ e ∈ own, hasKey ([] : List (String × JsFunc α)) e.1 = false :=
    fun _ _ => rfl
  unfold collectChain
  rw [collectOwn_eq_filter (Proto.node own s n Proto.root) own [] hlk hnd hacc]
  simp

/-- When every collected method is unparameterized, the declared test events
are single `runner.test` calls, one per method, in collection order. -/
theorem testsOf_map_declare {α : Type} (l : List (String × JsFunc α))
    (h : ∀ e ∈ l, e.2.meta.parameters = none) :
    testsOf (l.map (fun e => declareTestMethod e.2))
      = l.map (fun e => applyTestFunc (methodDisplayName e.2) e.2 [] (getSettings e.2.meta)) := by
  induction l with
  | nil => rfl
  | cons e rest ih =>
    have he := h e (List.mem_cons_self e rest)
    have ihr := ih (fun x hx => h x (List.mem_cons_of_mem e hx))
    have hd : declareTestMethod e.2
        = Event.testEv (applyTestFunc (methodDisplayName e.2) e.2 [] (getSettings e.2.meta)) := by
      simp [declareTestMethod, he]
    have hcons : testsOf
        (Event.testEv (applyTestFunc (methodDisplayName e.2) e.2 [] (getSettings e.2.meta))
          :: (rest.map (fun x => declareTestMethod x.2)))
        = applyTestFunc (methodDisplayName e.2) e.2 [] (getSettings e.2.meta)
          :: testsOf (rest.map (fun x => declareTestMethod x.2)) := by
      simp [testsOf]
    rw [List.map_cons, hd, hcons, ihr, List.map_cons]

theorem isSetupInstance_declare {α : Type} (m : JsFunc α) :
    isSetupInstance (declareTestMethod m) = false := by
  cases hm : m.meta.parameters <;> simp [declareTestMethod, hm, isSetupInstance]

theorem isTeardownInstance_declare {α : Type} (m : JsFunc α) :
    isTeardownInstance (declareTestMethod m) = false := by
  cases hm : m.meta.parameters <;> simp [declareTestMethod, hm, isTeardownInstance]

theorem filter_setup_preEvents {α : Type} (cls : TestClass α) :
    (preEvents cls).filter isSetupInstance
      = [Event.beforeEachEv "setup instance" false none] := by
  unfold preEvents
  cases cls.staticBefore <;> cases protoLookup cls.proto "before" <;>
    simp [isSetupInstance]

theorem filter_teardown_preEvents {α : Type} (cls : TestClass α) :
    (preEvents cls).filter isTeardownInstance = [] := by
  unfold preEvents
  cases cls.staticBefore <;> cases protoLookup cls.proto "before" <;>
    simp [isTeardownInstance]

theorem filter_setup_postEvents {α : Type} (cls : TestClass α) :
    (postEvents cls).filter isSetupInstance = [] := by
  unfold postEvents
  cases protoLookup cls.proto "after" <;> simp [isSetupInstance]

theorem filter_teardown_postEvents {α : Type} (cls : TestClass α) :
    (postEvents cls).filter isTeardownInstance
      = [Event.afterEachEv "teardown instance" false none] := by
  unfold postEvents
  cases protoLookup cls.proto "after" <;> simp [isTeardownInstance]

theorem filter_setup_afterAllEvents {α : Type} (cls : TestClass α) :
    (afterAllEvents cls).1.filter isSetupInstance = [] := by
  unfold afterAllEvents
  cases cls.staticAfter <;> cases cls.staticBefore <;> simp [isSetupInstance]

theorem filter_teardown_afterAllEvents {α : Type} (cls : TestClass α) :
    (afterAllEvents cls).1.filter isTeardownInstance = [] := by
  unfold afterAllEvents
  cases cls.staticAfter <;> cases cls.staticBefore <;> simp [isTeardownInstance]

theorem filter_setup_map_declare {α : Type} (l : List (String × JsFunc α)) :
    (l.map (fun e => declareTestMethod e.2)).filter isSetupInstance = [] := by
  rw [List.filter_eq_nil_iff]
  intro a ha
  rcases List.mem_map.1 ha with ⟨e, _, rfl⟩
  simp [isSetupInstance_declare]

theorem filter_teardown_map_declare {α : Type} (l : List (String × JsFunc α)) :
    (l.map (fun e => declareTestMethod e.2)).filter isTeardownInstance = [] := by
  rw [List.filter_eq_nil_iff]
  intro a ha
  rcases List.mem_map.1 ha with ⟨e, _, rfl⟩
  simp [isTeardownInstance_declare]

/-- In the successful case the callback's issued calls decompose into the
pre-test, test, post-test and after-all registrations, in that order. -/
theorem runSuiteCallback_ok {α : Type} (cls : TestClass α)
    (tests : List (String × JsFunc α))
    (h : collectChain cls.proto cls.proto [] = .ok tests) :
    runSuiteCallback cls
      = (preEvents cls ++ tests.map (fun e => declareTestMethod e.2) ++ postEvents cls
           ++ (afterAllEvents cls).1,
         (afterAllEvents cls).2) := by
  simp [runSuiteCallback, h]

/-! Claim theorems. -/

/-- C1: for a `@suite` class without inheritance (prototype directly below
`Object.prototype`) whose own methods have distinct names and none of which
is parameterized, invoking the registration callback issues exactly one
`runner.test` call per method carrying (truthy) test-name metadata, in the
order the methods are declared — each invoking that method with its own
settings — plus exactly one internal instance-setup `runner.beforeEach`
registration and exactly one internal instance-teardown `runner.afterEach`
registration. -/
theorem suite_callback_registers_each_decorated_method_once {α : Type}
    (own : List (String × JsFunc α)) (sb sa : Option (JsFunc α))
    (sFlag : Bool) (cn : String)
    (hnd : (own.map Prod.fst).Nodup)
    (hnp : ∀ e ∈ own, e.2.meta.parameters = none) :
    testsOf (runSuiteCallback ⟨sb, sa, Proto.node own sFlag cn Proto.root⟩).1
        = (own.filter (fun e => jsTruthyName e.2.meta.name)).map
            (fun e => applyTestFunc (methodDisplayName e.2) e.2 [] (getSettings e.2.meta))
      ∧ ((runSuiteCallback ⟨sb, sa, Proto.node own sFlag cn Proto.root⟩).1.filter
          isSetupInstance).length = 1
      ∧ ((runSuiteCallback ⟨sb, sa, Proto.node own sFlag cn Proto.root⟩).1.filter
          isTeardownInstance).length = 1 := by
  set cls : TestClass α := ⟨sb, sa, Proto.node own sFlag cn Proto.root⟩ with hcls
  have hcollect : collectChain cls.proto cls.proto []
      = .ok (own.filter (fun e => jsTruthyName e.2.meta.name)) :=
    collectChain_single_node own sFlag cn hnd
  have hrun := runSuiteCallback_ok cls _ hcollect
  have hnp2 : ∀ e ∈ own.filter (fun e => jsTruthyName e.2.meta.name),
      e.2.meta.parameters = none :=
    fun e he => hnp e (List.mem_of_mem_filter he)
  refine ⟨?_, ?_, ?_⟩
  · rw [hrun]
    simp only [testsOf_append, testsOf_preEvents, testsOf_postEvents,
      testsOf_afterAllEvents, List.nil_append, List.append_nil]
    exact testsOf_map_declare _ hnp2
  · rw [hrun]
    simp only [List.filter_append, filter_setup_preEvents, filter_setup_postEvents,
      filter_setup_afterAllEvents, filter_setup_map_declare, List.nil_append,
      List.append_nil]
    rfl
  · rw [hrun]
    simp only [List.filter_append, filter_teardown_preEvents, filter_teardown_postEvents,
      filter_teardown_afterAllEvents, filter_teardown_map_declare, List.nil_append,
      List.append_nil]
    rfl

/-- C1 witness: a three-method class (two decorated, one plain) issues two
tests in declaration order plus one setup and one teardown registration. -/
theorem suite_callback_registers_each_decorated_method_once_witness :
    testsOf (runSuiteCallback (⟨none, none, Proto.node
        [("one", ⟨0, 1, { name := some "one" }⟩),
         ("plain", ⟨0, 2, {}⟩),
         ("two", ⟨1, 3, { name := some "two" }⟩)] true "A" Proto.root⟩ : TestClass Nat)).1
        = [⟨"one", false, 1, [], none⟩, ⟨"two", true, 3, [], none⟩]
      ∧ ((runSuiteCallback (⟨none, none, Proto.node
        [("one", ⟨0, 1, { name := some "one" }⟩),
         ("plain", ⟨0, 2, {}⟩),
         ("two", ⟨1, 3, { name := some "two" }⟩)] true "A" Proto.root⟩ : TestClass Nat)).1.filter
          isSetupInstance).length = 1
      ∧ ((runSuiteCallback (⟨none, none, Proto.node
        [("one", ⟨0, 1, { name := some "one" }⟩),
         ("plain", ⟨0, 2, {}⟩),
         ("two", ⟨1, 3, { name := some "two" }⟩)] true "A" Proto.root⟩ : TestClass Nat)).1.filter
          isTeardownInstance).length = 1 := by
  have h := suite_callback_registers_each_decorated_method_once
    (α := Nat)
    [("one", ⟨0, 1, { name := some "one" }⟩),
     ("plain", ⟨0, 2, {}⟩),
     ("two", ⟨1, 3, { name := some "two" }⟩)] none none true "A"
    (by decide)
    (by intro e he; fin_cases he <;> rfl)
  simpa using h

/-- The walk fails with the configuration error as soon as a strict ancestor
prototype's constructor is marked `@suite`. -/
theorem collectChain_error_of_suiteAncestor {α : Type} (rootP : Proto α) :
    ∀ (p : Proto α), hasSuiteAncestor p = true →
      ∀ acc, ∃ a, collectChain rootP p acc = .error (suiteSubclassError (protoCtorName rootP) a) := by
  intro p
  induction p with
  | root => intro h; cases h
  | node own s n parent ih =>
    intro h acc
    cases parent with
    | root => cases h
    | node pOwn pSuite pName pParent =>
      by_cases hp : pSuite
      · exact ⟨pName, by simp [collectChain, hp]⟩
      · have hanc : hasSuiteAncestor (Proto.node pOwn pSuite pName pParent) = true := by
          have := h
          simp only [hasSuiteAncestor] at this
          rcases Bool.or_eq_true_iff.mp this with h1 | h2
          · exact absurd h1 hp
          · exact h2
        rcases ih hanc (collectOwn rootP own acc) with ⟨a, ha⟩
        refine ⟨a, ?_⟩
        simp only [collectChain, if_neg hp]
        exact ha

/-- C2: registering a `@suite` class whose prototype chain contains another
`@suite`-marked class makes the registration callback throw the
configuration error synchronously, and no `runner.test` call has been issued
at that moment. -/
theorem suite_inheriting_suite_fails_before_any_test {α : Type}
    (cls : TestClass α) (h : hasSuiteAncestor cls.proto = true) :
    (∃ a, (runSuiteCallback cls).2
        = some (suiteSubclassError (protoCtorName cls.proto) a))
      ∧ testsOf (runSuiteCallback cls).1 = [] := by
  rcases collectChain_error_of_suiteAncestor cls.proto cls.proto h [] with ⟨a, ha⟩
  constructor
  · exact ⟨a, by simp [runSuiteCallback, ha]⟩
  · have : (runSuiteCallback cls).1 = preEvents cls := by simp [runSuiteCallback, ha]
    rw [this, testsOf_preEvents]

/-- C2 witness: a suite class extending a suite class fails with the
configuration error and registers no test. -/
theorem suite_inheriting_suite_fails_before_any_test_witness :
    hasSuiteAncestor (α := Nat)
        (Proto.node [("t", ⟨0, 3, { name := some "t" }⟩)] true "S2"
          (Proto.node [] true "P2" Proto.root)) = true
      ∧ (∃ a, (runSuiteCallback (⟨none, none, Proto.node
            [("t", ⟨0, 3, { name := some "t" }⟩)] true "S2"
            (Proto.node [] true "P2" Proto.root)⟩ : TestClass Nat)).2
          = some (suiteSubclassError "S2" a))
      ∧ testsOf (runSuiteCallback (⟨none, none, Proto.node
            [("t", ⟨0, 3, { name := some "t" }⟩)] true "S2"
            (Proto.node [] true "P2" Proto.root)⟩ : TestClass Nat)).1 = [] := by
  refine ⟨rfl, ?_⟩
  exact suite_inheriting_suite_fails_before_any_test
    (⟨none, none, Proto.node [("t", ⟨0, 3, { name := some "t" }⟩)] true "S2"
        (Proto.node [] true "P2" Proto.root)⟩ : TestClass Nat) rfl

/-- C3: for a class whose static `before` carries `slow := 1` and whose
static `after` carries `slow := 2`, the `runner.afterAll` registration for
the static `after` hook is issued with the settings read from the static
`before` method's metadata (`slow := 1`), which differ from the static
`after` method's own settings (`slow := 2`): index.ts:224/228 pass
`theTestUI.getSettings(target.before)` where the hook being registered is
`target.after`. -/
theorem static_after_settings_read_from_static_before :
    (runSuiteCallback (⟨some ⟨0, 1, { slow := some 1 }⟩, some ⟨0, 2, { slow := some 2 }⟩,
        Proto.node [] false "C" Proto.root⟩ : TestClass Nat)).1
      = [Event.beforeAllEv "static before" false (some ⟨some 1, none, none, none⟩),
         Event.beforeEachEv "setup instance" false none,
         Event.afterEachEv "teardown instance" false none,
         Event.afterAllEv "static after" false (some ⟨some 1, none, none, none⟩)]
    ∧ getSettings ({ slow := some 2 } : Meta Nat) = some ⟨some 2, none, none, none⟩
    ∧ (some (⟨some 1, none, none, none⟩ : Settings)
        ≠ some (⟨some 2, none, none, none⟩ : Settings)) := by
  refine ⟨by decide, by decide, by decide⟩

/-- C10: on a method, the conditional execution-modifier overload with a
false condition is a no-op (the execution-mode metadata stays as it was, in
particular unset), a true condition applies the modifier, and the bare form
applies it — for each of `only`, `pending` and `skip`. -/
theorem execution_modifier_conditional {α : Type} (m : Meta α) :
    (executionModifierCondMethod (α := α) Execution.only false m = m)
  ∧ ((executionModifierCondMethod (α := α) Execution.only true m).execution
      = some Execution.only)
  ∧ ((executionModifierMethod (α := α) Execution.only m).execution = some Execution.only)
  ∧ (executionModifierCondMethod (α := α) Execution.pending false m = m)
  ∧ ((executionModifierCondMethod (α := α) Execution.pending true m).execution
      = some Execution.pending)
  ∧ ((executionModifierMethod (α := α) Execution.pending m).execution
      = some Execution.pending)
  ∧ (executionModifierCondMethod (α := α) Execution.skip false m = m)
  ∧ ((executionModifierCondMethod (α := α) Execution.skip true m).execution
      = some Execution.skip)
  ∧ ((executionModifierMethod (α := α) Execution.skip m).execution = some Execution.skip) :=
  ⟨rfl, rfl, rfl, rfl, rfl, rfl, rfl, rfl, rfl⟩

/-- C5 counterexample: a method whose display-name metadata is the custom
name `"custom"` loses it when a `@params` decorator is applied afterwards —
`makeParamsFunction` unconditionally assigns `propertyKey.toString()`
(index.ts:350), so the name becomes the property key `"m"`. -/
theorem params_overwrites_custom_name_counterexample :
    (paramsDecoratorApply (α := Nat) none 0 none "m" { name := some "custom" }).name
        = some "m"
    ∧ (some "m" : Option String) ≠ some "custom" :=
  ⟨rfl, by decide⟩

/-- C5 amended: the `@params` decorator and bare `@test` unconditionally
overwrite the display-name metadata with the method's property key,
regardless of any custom name previously set; a custom name is only obtained
from an explicitly renaming decorator such as `@test("name")`, which sets
exactly that name. -/
theorem name_metadata_overwritten_by_later_decorators {α : Type}
    (e e2 e3 : Option Execution) (p : α) (nm : Option String) (key nm2 : String)
    (m : Meta α) :
    (paramsDecoratorApply e p nm key m).name = some key
  ∧ (testPropertyApply e2 key m).name = some key
  ∧ (testDecoratorNamedApply e3 nm2 [] m).name = some nm2 := by
  refine ⟨rfl, ?_, ?_⟩
  · cases e2 <;> rfl
  · cases e3 <;> rfl

/-- The parameter set a `@params` application pushes. -/
def toTestParams {α : Type} (d : Option Execution × α × Option String) : TestParams α :=
  ⟨d.1, d.2.2, d.2.1⟩

theorem applyParamsList_parameters_some {α : Type} (key : String)
    (ds : List (Option Execution × α × Option String)) :
    ∀ (m : Meta α) (l : List (TestParams α)), m.parameters = some l →
      (applyParamsList key ds m).parameters = some (l ++ ds.map toTestParams) := by
  induction ds with
  | nil => intro m l h; simpa [applyParamsList] using h
  | cons d rest ih =>
    intro m l h
    have hstep : (paramsDecoratorApply d.1 d.2.1 d.2.2 key m).parameters
        = some (l ++ [toTestParams d]) := by
      simp [paramsDecoratorApply, h, toTestParams]
    have : applyParamsList key (d :: rest) m
        = applyParamsList key rest (paramsDecoratorApply d.1 d.2.1 d.2.2 key m) := rfl
    rw [this, ih _ _ hstep]
    simp [toTestParams]

/-- The index-wise content of a parameterized method's child suite: the
`i`-th registered test carries the `i`-th parameter set of the array, its
name computed with index `i`, invoked with exactly that set's value. -/
theorem childTests_getElem? {α : Type} (m : JsFunc α) (ps : List (TestParams α))
    (i : Nat) :
    (childTests m ps)[i]?
      = (ps[i]?).map (fun p =>
          applyTestFunc (paramTestName (methodDisplayName m) m.meta.nameForParameters i p)
            m [p.params] (some { execution := p.execution })) := by
  simp only [childTests, List.getElem?_map, List.getElem?_enum, Option.map_map]
  rfl

theorem childTests_length {α : Type} (m : JsFunc α) (ps : List (TestParams α)) :
    (childTests m ps).length = ps.length := by
  simp [childTests]

/-- C4 counterexample: with `@params` set A (value 1) written above
`@params` set B (value 2) on method `m`, the decorators apply bottom-up, so
B is pushed first; the child suite registers `m_0` invoking value 2 and
`m_1` invoking value 1 — the reverse of the top-to-bottom source order,
which would put value 1 at index 0. -/
theorem params_order_counterexample :
    declareTestMethod
        (⟨0, 0, applyParamsList "m" [(none, 2, none), (none, 1, none)] {}⟩ : JsFunc Nat)
      = Event.suiteEv "m"
          [⟨"m_0", false, 0, [2], some ⟨none, none, none, none⟩⟩,
           ⟨"m_1", false, 0, [1], some ⟨none, none, none, none⟩⟩] none
    ∧ Event.suiteEv (α := Nat) "m"
          [⟨"m_0", false, 0, [2], some ⟨none, none, none, none⟩⟩,
           ⟨"m_1", false, 0, [1], some ⟨none, none, none, none⟩⟩] none
        ≠ Event.suiteEv "m"
          [⟨"m_0", false, 0, [1], some ⟨none, none, none, none⟩⟩,
           ⟨"m_1", false, 0, [2], some ⟨none, none, none, none⟩⟩] none := by
  refine ⟨by decide, by decide⟩

/-- C4 amended: parameter sets accumulate in decorator-application order
(bottom-up, i.e. the reverse of the top-to-bottom source order of the
`@params` annotations); both iteration and the index used in the
`<methodName>_<index>` fallback name follow that application order — no
normalization to source order takes place. -/
theorem params_accumulate_in_application_order {α : Type} (key : String)
    (ds : List (Option Execution × α × Option String)) (m0 : Meta α)
    (h0 : m0.parameters = none) (hne : ds ≠ []) :
    (applyParamsList key ds m0).parameters = some (ds.map toTestParams)
  ∧ ∀ (len tag i : Nat),
      (childTests ⟨len, tag, applyParamsList key ds m0⟩ (ds.map toTestParams))[i]?
        = (ds[i]?).map (fun d => applyTestFunc
            (paramTestName (methodDisplayName ⟨len, tag, applyParamsList key ds m0⟩)
              (applyParamsList key ds m0).nameForParameters i (toTestParams d))
            ⟨len, tag, applyParamsList key ds m0⟩ [d.2.1] (some { execution := d.1 })) := by
  constructor
  · cases ds with
    | nil => exact absurd rfl hne
    | cons d rest =>
      have hstep : (paramsDecoratorApply d.1 d.2.1 d.2.2 key m0).parameters
          = some ([] ++ [toTestParams d]) := by
        simp [paramsDecoratorApply, h0, toTestParams]
      have hrw : applyParamsList key (d :: rest) m0
          = applyParamsList key rest (paramsDecoratorApply d.1 d.2.1 d.2.2 key m0) := rfl
      rw [hrw, applyParamsList_parameters_some key rest _ _ hstep]
      simp [toTestParams]
  · intro len tag i
    rw [childTests_getElem?, List.getElem?_map, Option.map_map]
    rfl

/-- C4 amended witness: two sets applied bottom-up accumulate as
`[value 2, value 1]`, and the child suite's index 0 carries value 2. -/
theorem params_accumulate_in_application_order_witness :
    (applyParamsList (α := Nat) "m" [(none, 2, none), (none, 1, none)] {}).parameters
        = some [⟨none, none, 2⟩, ⟨none, none, 1⟩]
    ∧ (childTests (⟨0, 0, applyParamsList "m" [(none, 2, none), (none, 1, none)] {}⟩ : JsFunc Nat)
        ([(none, 2, none), (none, 1, none)].map toTestParams))[0]?
        = some ⟨"m_0", false, 0, [2], some ⟨none, none, none, none⟩⟩ := by
  have h := params_accumulate_in_application_order (α := Nat) "m"
    [(none, 2, none), (none, 1, none)] {} rfl (by decide)
  refine ⟨?_, ?_⟩
  · simpa [toTestParams] using h.1
  · have h0 := h.2 0 0 0
    simpa [toTestParams, applyTestFunc, paramTestName, methodDisplayName] using h0

/-- C6 counterexample: an instance `before` hook carrying `retries := 3` and
`execution := skip` metadata is registered via `runner.beforeEach` with a
settings object that contains both — `getSettings` (index.ts:80-87) copies
every present key and no filtering to `slow`/`timeout` happens for lifecycle
hooks. -/
theorem lifecycle_settings_contain_retries_counterexample :
    ((runSuiteCallback (⟨none, none, Proto.node
        [("before", ⟨0, 4, { retries := some 3, execution := some Execution.skip }⟩),
         ("t", ⟨0, 5, { name := some "t" }⟩)] true "L" Proto.root⟩ : TestClass Nat)).1)[1]?
      = some (Event.beforeEachEv "before" false
          (some ⟨none, none, some 3, some Execution.skip⟩)) := by
  decide

/-- C6 amended: every lifecycle hook registration forwards the full settings
object `getSettings` reads from the consulted method's metadata — including
`retries` and `execution` values when attached; the method consulted is the
hook itself, except that `afterAll` reads the static `before` method's
metadata. -/
theorem lifecycle_settings_forward_full_getSettings {α : Type} (cls : TestClass α)
    (tests : List (String × JsFunc α))
    (hok : collectChain cls.proto cls.proto [] = .ok tests) :
    (∀ b, cls.staticBefore = some b →
        Event.beforeAllEv "static before" (isAsync b) (getSettings b.meta)
          ∈ (runSuiteCallback cls).1)
  ∧ (∀ b, protoLookup cls.proto "before" = some b →
        Event.beforeEachEv "before" (isAsync b) (getSettings b.meta)
          ∈ (runSuiteCallback cls).1)
  ∧ (∀ a, protoLookup cls.proto "after" = some a →
        Event.afterEachEv "after" (isAsync a) (getSettings a.meta)
          ∈ (runSuiteCallback cls).1)
  ∧ (∀ a b, cls.staticAfter = some a → cls.staticBefore = some b →
        Event.afterAllEv "static after" (isAsync a) (getSettings b.meta)
          ∈ (runSuiteCallback cls).1) := by
  rw [runSuiteCallback_ok cls tests hok]
  refine ⟨?_, ?_, ?_, ?_⟩
  · intro b hb
    simp [preEvents, hb, List.mem_append]
  · intro b hb
    simp [preEvents, hb, List.mem_append]
  · intro a ha
    simp [postEvents, ha, List.mem_append]
  · intro a b ha hb
    simp [afterAllEvents, ha, hb, List.mem_append]

/-- C6 amended witness: a class with all four hooks — the instance `before`
carrying `retries := 3` metadata — forwards each hook's full settings, the
instance `before` registration containing the retries value, and `afterAll`
carrying the static `before` method's settings. -/
theorem lifecycle_settings_forward_full_getSettings_witness :
    Event.beforeAllEv "static before" false (some ⟨some 7, none, none, none⟩)
        ∈ (runSuiteCallback (⟨some ⟨0, 1, { slow := some 7 }⟩, some ⟨1, 2, { timeout := some 9 }⟩,
            Proto.node [("before", ⟨0, 4, { retries := some 3 }⟩),
              ("after", ⟨1, 5, { slow := some 6 }⟩),
              ("t", ⟨0, 6, { name := some "t" }⟩)] true "L" Proto.root⟩ : TestClass Nat)).1
  ∧ Event.beforeEachEv "before" false (some ⟨none, none, some 3, none⟩)
        ∈ (runSuiteCallback (⟨some ⟨0, 1, { slow := some 7 }⟩, some ⟨1, 2, { timeout := some 9 }⟩,
            Proto.node [("before", ⟨0, 4, { retries := some 3 }⟩),
              ("after", ⟨1, 5, { slow := some 6 }⟩),
              ("t", ⟨0, 6, { name := some "t" }⟩)] true "L" Proto.root⟩ : TestClass Nat)).1
  ∧ Event.afterEachEv "after" true (some ⟨some 6, none, none, none⟩)
        ∈ (runSuiteCallback (⟨some ⟨0, 1, { slow := some 7 }⟩, some ⟨1, 2, { timeout := some 9 }⟩,
            Proto.node [("before", ⟨0, 4, { retries := some 3 }⟩),
              ("after", ⟨1, 5, { slow := some 6 }⟩),
              ("t", ⟨0, 6, { name := some "t" }⟩)] true "L" Proto.root⟩ : TestClass Nat)).1
  ∧ Event.afterAllEv "static after" true (some ⟨some 7, none, none, none⟩)
        ∈ (runSuiteCallback (⟨some ⟨0, 1, { slow := some 7 }⟩, some ⟨1, 2, { timeout := some 9 }⟩,
            Proto.node [("before", ⟨0, 4, { retries := some 3 }⟩),
              ("after", ⟨1, 5, { slow := some 6 }⟩),
              ("t", ⟨0, 6, { name := some "t" }⟩)] true "L" Proto.root⟩ : TestClass Nat)).1 := by
  have h := lifecycle_settings_forward_full_getSettings
    (α := Nat)
    (⟨some ⟨0, 1, { slow := some 7 }⟩, some ⟨1, 2, { timeout := some 9 }⟩,
        Proto.node [("before", ⟨0, 4, { retries := some 3 }⟩),
          ("after", ⟨1, 5, { slow := some 6 }⟩),
          ("t", ⟨0, 6, { name := some "t" }⟩)] true "L" Proto.root⟩ : TestClass Nat)
    [("t", ⟨0, 6, { name := some "t" }⟩)] rfl
  refine ⟨?_, ?_, ?_, ?_⟩
  · simpa using h.1 _ rfl
  · simpa using h.2.1 _ rfl
  · simpa using h.2.2.1 _ rfl
  · simpa using h.2.2.2 _ _ rfl rfl

/-- The naming priority stated by the specification: the parameter set's own
name when present (presence per JavaScript truthiness, so an undefined or
empty-string name counts as absent), else the declared naming function
applied to the set's value, else the `<methodName>_<index>` fallback. -/
def specParamTestName {α : Type} (testName : String) (nameFor : Option (α → String))
    (i : Nat) (p : TestParams α) : String :=
  if jsTruthyName p.name then p.name.getD ""
  else
    match nameFor with
    | some f => f p.params
    | none => testName ++ "_" ++ toString i

/-- The name the source computes coincides with the specification's
priority order. -/
theorem paramTestName_eq_spec {α : Type} (testName : String)
    (nameFor : Option (α → String)) (i : Nat) (p : TestParams α) :
    paramTestName testName nameFor i p = specParamTestName testName nameFor i p := by
  cases hp : p.name with
  | none => simp [paramTestName, specParamTestName, jsTruthyName, hp]
  | some s =>
    by_cases hs : s = ""
    · subst hs
      simp [paramTestName, specParamTestName, jsTruthyName, hp]
    · have hb : (s == "") = false := beq_eq_false_iff_ne.mpr hs
      simp [paramTestName, specParamTestName, jsTruthyName, hp, hb, hs]

/-- C7: registering a suite containing a parameterized method with K
parameter sets issues one `runner.suite` call named with the method's
display name whose callback issues exactly K `runner.test` calls, the
`i`-th named by priority: the set's own name, else the naming function
applied to the set's value, else the `<methodName>_<index>` fallback. -/
theorem parameterized_method_child_suite {α : Type} (cls : TestClass α)
    (tests : List (String × JsFunc α))
    (hok : collectChain cls.proto cls.proto [] = .ok tests)
    (k : String) (m : JsFunc α) (hm : (k, m) ∈ tests)
    (ps : List (TestParams α)) (hps : m.meta.parameters = some ps) :
    Event.suiteEv (methodDisplayName m) (childTests m ps) (getSettings m.meta)
        ∈ (runSuiteCallback cls).1
  ∧ (childTests m ps).length = ps.length
  ∧ ∀ i, (childTests m ps)[i]?
      = (ps[i]?).map (fun p =>
          applyTestFunc (specParamTestName (methodDisplayName m) m.meta.nameForParameters i p)
            m [p.params] (some { execution := p.execution })) := by
  refine ⟨?_, childTests_length m ps, ?_⟩
  · rw [runSuiteCallback_ok cls tests hok]
    have hd : declareTestMethod m
        = Event.suiteEv (methodDisplayName m) (childTests m ps) (getSettings m.meta) := by
      simp [declareTestMethod, hps]
    have : declareTestMethod m ∈ tests.map (fun e => declareTestMethod e.2) := by
      exact List.mem_map_of_mem (fun e => declareTestMethod e.2) hm
    rw [hd] at this
    simp only [List.mem_append]
    exact Or.inl (Or.inl (Or.inr this))
  · intro i
    rw [childTests_getElem?]
    cases ps[i]? with
    | none => rfl
    | some p => simp [paramTestName_eq_spec]

/-- C7 witness: a method with two parameter sets — one with an explicit
name, one relying on the declared naming function — yields a child suite
with two tests named `"alpha"` and `"gen6"`. -/
theorem parameterized_method_child_suite_witness :
    Event.suiteEv "run"
        [⟨"alpha", false, 9, [5], some ⟨none, none, none, none⟩⟩,
         ⟨"gen6", false, 9, [6], some ⟨none, none, none, some Execution.skip⟩⟩] none
        ∈ (runSuiteCallback (⟨none, none, Proto.node
            [("run", ⟨1, 9, ⟨some "run",
                some [⟨none, some "alpha", 5⟩, ⟨some Execution.skip, none, 6⟩],
                some (fun n => "gen" ++ toString n), none, none, none, none⟩⟩)]
            true "P" Proto.root⟩ : TestClass Nat)).1
  ∧ (childTests (⟨1, 9, ⟨some "run",
        some [⟨none, some "alpha", 5⟩, ⟨some Execution.skip, none, 6⟩],
        some (fun n => "gen" ++ toString n), none, none, none, none⟩⟩ : JsFunc Nat)
      [⟨none, some "alpha", 5⟩, ⟨some Execution.skip, none, 6⟩]).length = 2
  ∧ (childTests (⟨1, 9, ⟨some "run",
        some [⟨none, some "alpha", 5⟩, ⟨some Execution.skip, none, 6⟩],
        some (fun n => "gen" ++ toString n), none, none, none, none⟩⟩ : JsFunc Nat)
      [⟨none, some "alpha", 5⟩, ⟨some Execution.skip, none, 6⟩])[0]?
      = some ⟨"alpha", false, 9, [5], some ⟨none, none, none, none⟩⟩
  ∧ (childTests (⟨1, 9, ⟨some "run",
        some [⟨none, some "alpha", 5⟩, ⟨some Execution.skip, none, 6⟩],
        some (fun n => "gen" ++ toString n), none, none, none, none⟩⟩ : JsFunc Nat)
      [⟨none, some "alpha", 5⟩, ⟨some Execution.skip, none, 6⟩])[1]?
      = some ⟨"gen6", false, 9, [6], some ⟨none, none, none, some Execution.skip⟩⟩ := by
  have h := parameterized_method_child_suite
    (α := Nat)
    (⟨none, none, Proto.node
        [("run", ⟨1, 9, ⟨some "run",
            some [⟨none, some "alpha", 5⟩, ⟨some Execution.skip, none, 6⟩],
            some (fun n => "gen" ++ toString n), none, none, none, none⟩⟩)]
        true "P" Proto.root⟩ : TestClass Nat)
    [("run", ⟨1, 9, ⟨some "run",
        some [⟨none, some "alpha", 5⟩, ⟨some Execution.skip, none, 6⟩],
        some (fun n => "gen" ++ toString n), none, none, none, none⟩⟩)]
    rfl
    "run"
    (⟨1, 9, ⟨some "run",
        some [⟨none, some "alpha", 5⟩, ⟨some Execution.skip, none, 6⟩],
        some (fun n => "gen" ++ toString n), none, none, none, none⟩⟩ : JsFunc Nat)
    (List.mem_singleton_self _)
    [⟨none, some "alpha", 5⟩, ⟨some Execution.skip, none, 6⟩]
    rfl
  refine ⟨?_, ?_, ?_, ?_⟩
  · have h1 := h.1
    simpa [childTests, paramTestName, methodDisplayName, applyTestFunc] using h1
  · simpa using h.2.1
  · have h0 := h.2.2 0
    simpa [specParamTestName, jsTruthyName, applyTestFunc, methodDisplayName] using h0
  · have h1 := h.2.2 1
    simpa [specParamTestName, jsTruthyName, applyTestFunc, methodDisplayName] using h1

/-- C8: a method is registered as asynchronous (its callback declares a
completion-callback parameter) exactly when its declared arity exceeds the
number of parameter-set values it is invoked with: an unparameterized method
is invoked with no values and is async iff its arity exceeds 0, while a
parameterized method is invoked with exactly one value per registered test
and is async iff its arity exceeds 1. -/
theorem async_detection_by_arity {α : Type} (m : JsFunc α) :
    (m.meta.parameters = none →
      (isAsync m = true ↔ 0 < m.length)
      ∧ declareTestMethod m
          = Event.testEv ⟨methodDisplayName m, isAsync m, m.tag, [], getSettings m.meta⟩)
  ∧ (∀ ps, m.meta.parameters = some ps →
      (isAsync m = true ↔ 1 < m.length)
      ∧ ∀ r ∈ childTests m ps, r.callArgs.length = 1 ∧ r.async = isAsync m) := by
  constructor
  · intro h
    constructor
    · simp [isAsync, h]
    · simp [declareTestMethod, h, applyTestFunc]
  · intro ps h
    constructor
    · simp [isAsync, h]
    · intro r hr
      rcases List.mem_map.1 hr with ⟨ip, _, rfl⟩
      exact ⟨rfl, rfl⟩

/-- C8 witness: an unparameterized one-argument method is async and a
one-argument method with one parameter set is not. -/
theorem async_detection_by_arity_witness :
    isAsync (⟨1, 0, ⟨none, none, none, none, none, none, none⟩⟩ : JsFunc Nat) = true
  ∧ declareTestMethod (⟨1, 0, ⟨none, none, none, none, none, none, none⟩⟩ : JsFunc Nat)
      = Event.testEv ⟨"undefined", true, 0, [], none⟩
  ∧ isAsync (⟨1, 0, ⟨none, some [⟨none, none, 5⟩], none, none, none, none, none⟩⟩ : JsFunc Nat)
      = false
  ∧ (⟨"undefined_0", false, 0, [5], some ⟨none, none, none, none⟩⟩ : TestReg Nat).callArgs.length = 1
  ∧ (⟨"undefined_0", false, 0, [5], some ⟨none, none, none, none⟩⟩ : TestReg Nat).async
      = isAsync (⟨1, 0, ⟨none, some [⟨none, none, 5⟩], none, none, none, none, none⟩⟩ : JsFunc Nat) := by
  have h1 := (async_detection_by_arity
    (⟨1, 0, ⟨none, none, none, none, none, none, none⟩⟩ : JsFunc Nat)).1 rfl
  have h2 := (async_detection_by_arity
    (⟨1, 0, ⟨none, some [⟨none, none, 5⟩], none, none, none, none, none⟩⟩ : JsFunc Nat)).2
    [⟨none, none, 5⟩] rfl
  have hreg := h2.2 ⟨"undefined_0", false, 0, [5], some ⟨none, none, none, none⟩⟩ (by decide)
  refine ⟨h1.1.mpr (by decide), ?_, ?_, hreg.1, hreg.2⟩
  · simpa using h1.2
  · exact Bool.eq_false_iff.mpr (fun hb => by exact absurd (h2.1.mp hb) (by decide))

/-- C9 counterexample: base class `B` declares test method `m` (carrying
test-name metadata, tag 10); subclass `S` (a `@suite`) overrides `m` with an
undecorated method (tag 20).  Property lookup during collection always goes
through the derived prototype and finds the metadata-less override, so no
`runner.test` call at all is issued for `m` — not the single registration
the claim requires. -/
theorem undecorated_override_not_registered :
    testsOf (runSuiteCallback (⟨none, none, Proto.node
        [("m", ⟨0, 20, ⟨none, none, none, none, none, none, none⟩⟩)] true "S"
        (Proto.node [("m", ⟨0, 10, ⟨some "m", none, none, none, none, none, none⟩⟩)]
          false "B" Proto.root)⟩ : TestClass Nat)).1
      = []
  ∧ (runSuiteCallback (⟨none, none, Proto.node
        [("m", ⟨0, 20, ⟨none, none, none, none, none, none, none⟩⟩)] true "S"
        (Proto.node [("m", ⟨0, 10, ⟨some "m", none, none, none, none, none, none⟩⟩)]
          false "B" Proto.root)⟩ : TestClass Nat)).2 = none := by
  refine ⟨by decide, by decide⟩

/-- C9 amended: when the subclass's override itself carries test-name
metadata, registering the subclass issues exactly one `runner.test` call for
the method — the override (its name, arity, tag and settings), never the
base version. -/
theorem decorated_override_registered_once {α : Type} (kM sName bName : String)
    (mS mB : JsFunc α) (sb sa : Option (JsFunc α)) (sFlag : Bool)
    (hS : jsTruthyName mS.meta.name = true)
    (hB : jsTruthyName mB.meta.name = true)
    (hnp : mS.meta.parameters = none) :
    testsOf (runSuiteCallback (⟨sb, sa,
        Proto.node [(kM, mS)] sFlag sName
          (Proto.node [(kM, mB)] false bName Proto.root)⟩ : TestClass α)).1
      = [applyTestFunc (methodDisplayName mS) mS [] (getSettings mS.meta)] := by
  set rootP : Proto α :=
    Proto.node [(kM, mS)] sFlag sName (Proto.node [(kM, mB)] false bName Proto.root)
    with hroot
  have hlk : protoLookup rootP kM = some mS := by
    simp [hroot, protoLookup, List.find?]
  have h1 : collectOwn rootP [(kM, mS)] [] = [(kM, mS)] := by
    rw [collectOwn_cons_found rootP (kM, mS) [] [] mS hlk]
    simp [hS, hasKey, collectOwn]
  have h2 : collectOwn rootP [(kM, mB)] [(kM, mS)] = [(kM, mS)] := by
    rw [collectOwn_cons_found rootP (kM, mB) [] [(kM, mS)] mS hlk]
    simp [hasKey, collectOwn]
  have hchain : collectChain rootP rootP [] = .ok [(kM, mS)] := by
    rw [hroot]
    show collectChain rootP
        (Proto.node [(kM, mS)] sFlag sName (Proto.node [(kM, mB)] false bName Proto.root))
        [] = .ok [(kM, mS)]
    simp only [collectChain, Bool.false_eq_true, if_false, ← hroot, h1, h2]
  have hrun := runSuiteCallback_ok
    (⟨sb, sa, rootP⟩ : TestClass α) [(kM, mS)] hchain
  rw [hrun]
  simp only [testsOf_append, testsOf_preEvents, testsOf_postEvents,
    testsOf_afterAllEvents, List.nil_append, List.append_nil]
  exact testsOf_map_declare [(kM, mS)] (by intro e he; rw [List.mem_singleton.1 he]; exact hnp)

/-- C9 amended witness: with both the base method and the override decorated,
exactly one test is registered and it invokes the override (tag 20). -/
theorem decorated_override_registered_once_witness :
    testsOf (runSuiteCallback (⟨none, none,
        Proto.node [("m", ⟨0, 20, ⟨some "m", none, none, none, none, none, none⟩⟩)] true "S"
          (Proto.node [("m", ⟨0, 10, ⟨some "m", none, none, none, none, none, none⟩⟩)]
            false "B" Proto.root)⟩ : TestClass Nat)).1
      = [⟨"m", false, 20, [], none⟩] := by
  have h := decorated_override_registered_once (α := Nat) "m" "S" "B"
    ⟨0, 20, ⟨some "m", none, none, none, none, none, none⟩⟩
    ⟨0, 10, ⟨some "m", none, none, none, none, none, none⟩⟩
    none none true rfl rfl rfl
  simpa [applyTestFunc, methodDisplayName, getSettings, isAsync] using h

end Testdeck
